import Mathlib

/-!
Verification of the next-yate YATE external-module client.

This file gives a shallow embedding, in Lean 4, of the parts of
`src/index.js` (class `Yate`, class `YateMessage`, class `YateChannel`
and the module-level helper functions) that the specification's claims
are about, together with theorems settling those claims.

Modelling conventions:
* JavaScript strings are modelled by Lean `String`; the per-character
  loops of the source work on `String.data` (the list of characters).
  `charCodeAt`/`fromCharCode` become `Char.toNat`/`Char.ofNat`.
* JavaScript dynamic values are modelled by the inductive type `JVal`
  (undefined, booleans, strings, plain objects and opaque function
  values); objects are field lists (`JFields`) in property-insertion
  order, which is the `for..in` iteration order for the (non
  array-index) keys this library uses. `JFields` is a mutual inductive
  rather than a nested `List` so that every recursive definition below
  is structural and computes by `rfl`/`decide`.
* Fallible code (statements that can throw a `TypeError` or an
  `Error`) is modelled with `Except JsErr`.
* Asynchronous control flow (event-emitter listeners, timers and
  promise continuations) is modelled by small step functions over
  explicit traces of events, documented at each definition.
-/

namespace NextYate

mutual
/-- Dynamic JavaScript values as used by the message/parameter code of
the library: `undefined`, booleans, strings, plain objects, and
function values (whose only observable uses in the modelled code are
being skipped by `typeof === "function"` checks and being coerced by
string contexts). -/
inductive JVal where
  | jsUndefined : JVal
  | bool  : Bool → JVal
  | str   : String → JVal
  | fn    : JVal
  | obj   : JFields → JVal
  deriving DecidableEq
/-- The own properties of a plain JavaScript object, in insertion
order. -/
inductive JFields where
  | nil  : JFields
  | cons : String → JVal → JFields → JFields
  deriving DecidableEq
end

/-- Errors thrown by the modelled JavaScript code: `TypeError` (for
example reading `.length` of `undefined`, or assigning a property of a
primitive or of a non-writable property in strict mode) and the
`Error("Message name required.")` thrown by the `YateMessage`
constructor. -/
inductive JsErr where
  | typeError    : JsErr
  | nameRequired : JsErr
  deriving Repr, DecidableEq

/-- JavaScript string coercion `v + ""` / `v.toString()` for the value
shapes that reach it in the modelled code (the exact source text of a
coerced function is irrelevant to every theorem below and is modelled
by the fixed token "function"). -/
def jsToString : JVal → String
  | .jsUndefined  => "undefined"
  | .bool b => if b then "true" else "false"
  | .str s  => s
  | .obj _  => "[object Object]"
  | .fn     => "function"

/-- JavaScript truthiness of a `JVal` (`undefined`, `false` and `""`
are falsy; every object is truthy). -/
def jsTruthy : JVal → Bool
  | .jsUndefined  => false
  | .bool b => b
  | .str s  => s ≠ ""
  | .obj _  => true
  | .fn     => true

/-- The own-key test `k in o` restricted to own properties (the full
`in` operator, which also sees prototype properties of messages, is
`jsHasProp` below). -/
def JFields.hasKey : JFields → String → Bool
  | .nil, _ => false
  | .cons k2 _ rest, k => k2 = k || rest.hasKey k

/-- Own-property read `o[k]` (missing keys read as `undefined`). -/
def JFields.getVal : JFields → String → JVal
  | .nil, _ => .jsUndefined
  | .cons k2 v rest, k => if k2 = k then v else rest.getVal k

/-- Raw own-property update: overwrites in place when the key exists
(JavaScript keeps the original insertion position), otherwise appends.
This is the effect of a property assignment for every key except
`__proto__` (see `jsObjSet`). -/
def JFields.setKey : JFields → String → JVal → JFields
  | .nil, k, v => .cons k v .nil
  | .cons k2 v2 rest, k, v =>
    if k2 = k then .cons k v rest else .cons k2 v2 (rest.setKey k v)

/-- The names `Object.prototype` contributes to every plain object:
visible to the `in` operator even on `{}`, and (except `__proto__`,
which is an accessor) holding inherited function values. -/
def objProtoNames : List String :=
  ["toString", "constructor", "hasOwnProperty", "isPrototypeOf",
   "propertyIsEnumerable", "toLocaleString", "valueOf",
   "__defineGetter__", "__defineSetter__", "__lookupGetter__",
   "__lookupSetter__", "__proto__"]

/-- Property assignment `o[k] = v` on a plain object: an own write,
except that assigning `__proto__` dispatches to the inherited
`Object.prototype` accessor, which for the value shapes occurring here
(strings, booleans, undefined) changes nothing and creates no own
key. -/
def jsObjSet (o : JFields) (k : String) (v : JVal) : JFields :=
  if k = "__proto__" then o else o.setKey k v

/-- Concatenation of field lists (a statement helper, not source
code). -/
def JFields.append : JFields → JFields → JFields
  | .nil, g => g
  | .cons k v rest, g => .cons k v (rest.append g)

/-- The key list of an object, in order (a statement helper). -/
def JFields.keys : JFields → List String
  | .nil => []
  | .cons k _ rest => k :: rest.keys

/-- The `charAt(0)` of a string, `none` when the string is empty (in
JavaScript `"".charAt(0)` is `""`, which compares unequal to any
one-character string, matching the `none` case here). -/
def charAt0 (s : String) : Option Char := s.data.head?

/-- JavaScript `String.prototype.split` with a one-character separator:
accumulator-based splitting of the character list. -/
def splitCharAux (sep : Char) : List Char → List Char → List (List Char)
  | [], acc => [acc.reverse]
  | c :: rest, acc =>
    if c = sep then acc.reverse :: splitCharAux sep rest []
    else splitCharAux sep rest (c :: acc)

/-- JavaScript `s.split(sep)` for a one-character separator. -/
def jsSplit (sep : Char) (s : String) : List String :=
  (splitCharAux sep s.data []).map String.mk

/-- JavaScript `s.startsWith(p)`. -/
def jsStartsWith (s p : String) : Bool := p.data.isPrefixOf s.data

/-! ## Codec: `_escape` / `_unescape` (src/index.js lines 1678-1707) -/

/-- One iteration of the loop body of `_escape`: a character with code
below 32, a `:` , or the optional `extra` character is emitted as `%`
followed by the character with code `+64`; a literal `%` is doubled;
anything else is copied. -/
def escapeChar (extra : Option Char) (c : Char) : List Char :=
  if c.toNat < 32 ∨ c = ':' ∨ some c = extra then
    ['%', Char.ofNat (c.toNat + 64)]
  else if c = '%' then
    ['%', '%']
  else
    [c]

/-- The character loop of `_escape`. -/
def escapeCore (extra : Option Char) : List Char → List Char
  | [] => []
  | c :: rest => escapeChar extra c ++ escapeCore extra rest

/-- The function `_escape(str, extra)`: `undefined`/`null` become `""`,
any other value is coerced to a string and escaped character by
character. -/
def _escape (v : JVal) (extra : Option Char) : String :=
  match v with
  | .jsUndefined => ""
  | v => ⟨escapeCore extra (jsToString v).data⟩

/-- The character loop of `_unescape`: after a `%` the next character
is taken; a second `%` stands for a literal `%`, anything else has 64
subtracted from its code. A trailing lone `%` reads `charAt` past the
end (the empty string), whose `charCodeAt` is NaN, and
`String.fromCharCode(NaN)` is the NUL character. -/
def unescapeCore : List Char → List Char
  | [] => []
  | c :: rest =>
    if c = '%' then
      match rest with
      | [] => [Char.ofNat 0]
      | d :: rest2 =>
        (if d = '%' then '%' else Char.ofNat (d.toNat - 64)) :: unescapeCore rest2
    else
      c :: unescapeCore rest

/-- The function `_unescape(str)` on an actual string argument (calls
on `undefined` throw and are modelled at the call sites). -/
def _unescape (s : String) : String := ⟨unescapeCore s.data⟩

/-- Booleans to the wire tokens, function `_bool2str`. -/
def _bool2str (b : Bool) : String := if b then "true" else "false"

/-- Wire tokens to booleans, function `_str2bool` (anything other than
the exact string "true", including `undefined`, is false). -/
def _str2bool (v : JVal) : Bool :=
  match v with
  | .str s => s = "true"
  | _ => false

/-! ### Claim C2: escape/unescape round-trip -/

theorem nat_isValidChar_of_lt (n : Nat) (h : n < 55296) : n.isValidChar :=
  Or.inl h

theorem char_toNat_ofNat (n : Nat) (h : n.isValidChar) :
    (Char.ofNat n).toNat = n := by
  simp [Char.ofNat, h, Char.toNat, Char.ofNatAux, UInt32.toNat, BitVec.toNat_ofNatLt]

theorem escapeChar_valid (c : Char) (h : c.toNat < 32 ∨ c = ':') :
    (c.toNat + 64).isValidChar := by
  rcases h with h | h
  · exact nat_isValidChar_of_lt _ (by omega)
  · subst h; exact nat_isValidChar_of_lt _ (by decide)

theorem escapeChar_special (c : Char) (hs : c.toNat < 32 ∨ c = ':') :
    escapeChar none c = ['%', Char.ofNat (c.toNat + 64)] := by
  rw [escapeChar, if_pos (by tauto)]

theorem escapeChar_percent :
    escapeChar none '%' = ['%', '%'] := by decide

theorem escapeChar_plain (c : Char) (hs : ¬(c.toNat < 32 ∨ c = ':'))
    (hp : c ≠ '%') : escapeChar none c = [c] := by
  rw [escapeChar, if_neg, if_neg hp]
  rintro (h | h | h)
  · exact hs (Or.inl h)
  · exact hs (Or.inr h)
  · simp at h

theorem ofNat_shift_ne_percent (c : Char) (htn : (Char.ofNat (c.toNat + 64)).toNat = c.toNat + 64) :
    Char.ofNat (c.toNat + 64) ≠ '%' := by
  intro h
  have h37 : (Char.ofNat (c.toNat + 64)).toNat = 37 := by rw [h]; decide
  omega

theorem unescapeCore_percent (d : Char) (t : List Char) :
    unescapeCore ('%' :: d :: t) =
      (if d = '%' then '%' else Char.ofNat (d.toNat - 64)) :: unescapeCore t := by
  rw [unescapeCore.eq_def]
  simp

theorem unescapeCore_plain (c : Char) (hp : c ≠ '%') (t : List Char) :
    unescapeCore (c :: t) = c :: unescapeCore t := by
  rw [unescapeCore.eq_def]
  simp [hp]

theorem unescapeCore_escapeCore (l : List Char) :
    unescapeCore (escapeCore none l) = l := by
  induction l with
  | nil => rfl
  | cons c rest ih =>
    show unescapeCore (escapeChar none c ++ escapeCore none rest) = c :: rest
    by_cases hs : c.toNat < 32 ∨ c = ':'
    · have htn := char_toNat_ofNat _ (escapeChar_valid c hs)
      have hne := ofNat_shift_ne_percent c htn
      rw [escapeChar_special c hs]
      show unescapeCore ('%' :: Char.ofNat (c.toNat + 64) :: escapeCore none rest) = c :: rest
      rw [unescapeCore_percent, if_neg hne, htn, Nat.add_sub_cancel, Char.ofNat_toNat, ih]
    · by_cases hp : c = '%'
      · subst hp
        rw [escapeChar_percent]
        show unescapeCore ('%' :: '%' :: escapeCore none rest) = '%' :: rest
        rw [unescapeCore_percent, if_pos rfl, ih]
      · rw [escapeChar_plain c hs hp]
        show unescapeCore (c :: escapeCore none rest) = c :: rest
        rw [unescapeCore_plain c hp, ih]

theorem mem_escapeCore_none (l : List Char) (c : Char)
    (hc : c ∈ escapeCore none l) : 32 ≤ c.toNat ∧ c ≠ ':' := by
  induction l with
  | nil => simp [escapeCore] at hc
  | cons a rest ih =>
    rw [escapeCore, List.mem_append] at hc
    rcases hc with hc | hc
    · by_cases hs : a.toNat < 32 ∨ a = ':'
      · have htn := char_toNat_ofNat _ (escapeChar_valid a hs)
        rw [escapeChar_special a hs] at hc
        simp only [List.mem_cons, List.not_mem_nil, or_false] at hc
        rcases hc with rfl | rfl
        · exact ⟨by decide, by decide⟩
        · constructor
          · omega
          · intro h
            have h58 : (Char.ofNat (a.toNat + 64)).toNat = 58 := by rw [h]; decide
            omega
      · by_cases hp : a = '%'
        · subst hp
          rw [escapeChar_percent] at hc
          simp only [List.mem_cons, List.not_mem_nil, or_false, or_self] at hc
          subst hc
          exact ⟨by decide, by decide⟩
        · rw [escapeChar_plain a hs hp] at hc
          simp only [List.mem_singleton] at hc
          subst hc
          push_neg at hs
          exact ⟨by omega, hs.2⟩
    · exact ih hc

/-- C2: for every string s, `_unescape (_escape s) = s`; the escaped
string contains no character with code below 32 and no `:`; and on the
concrete input "a:b%c\nd" the escape is "a%zb%%c%Jd" which unescapes
back to the original. -/
theorem escape_round_trip :
    (∀ s : String, _unescape (_escape (JVal.str s) none) = s)
  ∧ (∀ s : String, ∀ c ∈ (_escape (JVal.str s) none).data, 32 ≤ c.toNat ∧ c ≠ ':')
  ∧ _escape (JVal.str "a:b%c\nd") none = "a%zb%%c%Jd"
  ∧ _unescape "a%zb%%c%Jd" = "a:b%c\nd" := by
  refine ⟨?_, ?_, by decide, by decide⟩
  · intro s
    show String.mk (unescapeCore (String.data (String.mk (escapeCore none s.data)))) = s
    rw [show (String.mk (escapeCore none s.data)).data = escapeCore none s.data from rfl,
      unescapeCore_escapeCore]
  · intro s c hc
    exact mem_escapeCore_none s.data c hc

/-- Closed witness for C2, applying the round-trip theorem at the
concrete string "x:y" and the membership statement at a concrete
escaped character. -/
theorem escape_round_trip_witness :
    _unescape (_escape (JVal.str "x:y") none) = "x:y" ∧ (32 ≤ ('%').toNat ∧ '%' ≠ ':') :=
  ⟨escape_round_trip.1 "x:y",
   escape_round_trip.2.1 "a%b" '%' (by decide)⟩

/-! ## Parameter nesting: `_str2obj` / `_obj2str` (src/index.js lines 1741-1799) -/

/-- The own-key test for the flat (string-valued) result objects built
by `_obj2str`. -/
def hasKeyL {α : Type} (o : List (String × α)) (k : String) : Bool :=
  o.any (fun p => p.1 = k)

/-- Property assignment on the flat result objects built by
`_obj2str`: the `__proto__` key hits the inherited setter and creates
no own key (as in `jsObjSet`); every other key overwrites in place or
appends. -/
def setKeyL {α : Type} (o : List (String × α)) (k : String) (v : α) : List (String × α) :=
  if k = "__proto__" then o
  else if hasKeyL o k then o.map (fun p => if p.1 = k then (k, v) else p)
  else o ++ [(k, v)]

/-- The value re-typing at the top of the `_str2obj` loop: the exact
strings "false"/"true" become booleans, everything else is kept. -/
def boolify (v : JVal) : JVal :=
  match v with
  | .str s =>
    if s = "false" then .bool false
    else if s = "true" then .bool true
    else .str s
  | v => v

/-- The `key.split(".").reduce(...)` body of `_str2obj`, writing value
`v` at the dotted path. The guard of both branches is
`typeof object === "object" && key in object`, and `in` sees the
prototype chain, so an `Object.prototype` name tests true even on a
fresh object. On the last segment: an own object value gets a
same-named field assigned inside it; an own function value has a
property assigned onto the (extensible) function object, leaving the
field list unchanged; an own primitive makes the code assign a
property of a primitive, which throws a `TypeError` in strict mode; a
key found only on the prototype makes the code assign onto the
inherited function (or, for `__proto__`, hit the inherited accessor) —
either way no own key is created and the pair is dropped; otherwise a
fresh key is appended. On inner segments: an own non-object value `w`
is first wrapped as the object with the single field `k` holding `w`;
a prototype-only method name is wrapped the same way around the
inherited function; `__proto__` makes the code descend into the shared
`Object.prototype` itself and mutate it — a global side effect outside
this object-local model, modelled as dropping the write (no own key is
created on the object either way, and every theorem below keeps such
keys out of reach); a missing key becomes an empty object. -/
def setPath : JFields → List String → JVal → Except JsErr JFields
  | o, [], _ => .ok o
  | o, [k], v =>
    if o.hasKey k then
      match o.getVal k with
      | .obj f => .ok (o.setKey k (.obj (jsObjSet f k v)))
      | .fn => .ok o
      | _ => .error .typeError
    else if k ∈ objProtoNames then
      .ok o
    else
      .ok (o.setKey k v)
  | o, k :: k2 :: rest, v =>
    if o.hasKey k then
      let inner : JFields :=
        match o.getVal k with
        | .obj f => f
        | w => .cons k w .nil
      Except.map (fun innerNew => o.setKey k (.obj innerNew)) (setPath inner (k2 :: rest) v)
    else if k = "__proto__" then
      .ok o
    else if k ∈ objProtoNames then
      Except.map (fun innerNew => o.setKey k (.obj innerNew))
        (setPath (.cons k .fn .nil) (k2 :: rest) v)
    else
      Except.map (fun innerNew => o.setKey k (.obj innerNew)) (setPath .nil (k2 :: rest) v)

/-- The `for (let key in obj)` loop of `_str2obj`. A key whose
`indexOf(".")` is 0 (it starts with a dot, a falsy index) is copied
directly; every other key, dotted or not, goes through the
split/reduce path write. -/
def str2objLoop : JFields → JFields → Except JsErr JFields
  | .nil, res => .ok res
  | .cons k v rest, res =>
    let val := boolify v
    if charAt0 k = some '.' then
      str2objLoop rest (jsObjSet res k val)
    else
      match setPath res (jsSplit '.' k) val with
      | .ok res2 => str2objLoop rest res2
      | .error e => .error e

/-- The function `_str2obj(obj)`: reconstitutes dotted keys into nested
objects. -/
def _str2obj (o : JFields) : Except JsErr JFields := str2objLoop o .nil

/-- The prefix computed by `_obj2str` from its `rootkey` argument
(`rootkey ? rootkey + "." : ""`, so the empty string rootkey is falsy
and yields the empty prefix). -/
def jsPref (rootkey : Option String) : String :=
  match rootkey with
  | some r => if r = "" then "" else r ++ "."
  | none => ""

mutual
/-- The per-entry body of the `for (let key in obj)` loop of
`_obj2str` (the key's underscore test is done by the caller): function
and undefined values are skipped, object values are flattened
recursively with the key as the new rootkey and copied under the
prefix, and primitive values are stringified, with the quirk that a
key equal to the rootkey is written without the prefix. -/
def obj2strEntry (pref : String) (rootkey : Option String) (k : String)
    (res : List (String × String)) : JVal → List (String × String)
  | .fn => res
  | .jsUndefined => res
  | .obj f =>
    let subobj := obj2strLoop (jsPref (some k)) (some k) f []
    subobj.foldl (fun r p => setKeyL r (pref ++ p.1) p.2) res
  | w =>
    let val := jsToString w
    if rootkey = some k then setKeyL res k val
    else setKeyL res (pref ++ k) val
/-- The `for (let key in obj)` loop of `_obj2str`, carrying the result
accumulator; keys beginning with `_` are skipped. -/
def obj2strLoop (pref : String) (rootkey : Option String) :
    JFields → List (String × String) → List (String × String)
  | .nil, res => res
  | .cons k v rest, res =>
    obj2strLoop pref rootkey rest
      (if charAt0 k = some '_' then res else obj2strEntry pref rootkey k res v)
end

/-- The function `_obj2str(obj, rootkey)`: flattens nested objects to
dotted keys. -/
def _obj2str (o : JFields) (rootkey : Option String) : List (String × String) :=
  obj2strLoop (jsPref rootkey) rootkey o []

/-- The function `_par2str(msg, empty)`: flattens the message object
and renders the non-underscore parameters as `:key=value` pairs,
skipping empty values unless `empty` is set. -/
def _par2str (msg : JFields) (empty : Bool) : String :=
  let flat := _obj2str msg none
  flat.foldl (fun res p =>
    if charAt0 p.1 = some '_' then res
    else if p.2 ≠ "" then
      res ++ ":" ++ _escape (.str p.1) none ++ "=" ++ _escape (.str p.2) none
    else if empty then
      res ++ ":" ++ _escape (.str p.1) none
    else res) ""

/-! ### Claim C5: parameter nesting round-trip -/

theorem string_empty_append (s : String) : "" ++ s = s := by cases s; rfl

theorem string_mk_data (s : String) : String.mk s.data = s := by cases s; rfl

/-- Induction over the field-list spine alone (the `induction` tactic
cannot use the multi-motive recursor of the mutual inductive). -/
theorem JFields.inductionOn (motive : JFields → Prop) (hnil : motive .nil)
    (hcons : ∀ k v rest, motive rest → motive (.cons k v rest)) :
    ∀ f, motive f
  | .nil => hnil
  | .cons k v rest => hcons k v rest (JFields.inductionOn motive hnil hcons rest)

theorem JFields.setKey_fresh (o : JFields) (k : String) (v : JVal)
    (h : o.hasKey k = false) :
    o.setKey k v = o.append (.cons k v .nil) := by
  induction o using JFields.inductionOn with
  | hnil => rfl
  | hcons k2 v2 rest ih =>
    rw [JFields.hasKey, Bool.or_eq_false_iff] at h
    rw [JFields.setKey, if_neg (by simpa using h.1), JFields.append, ih h.2]

theorem JFields.hasKey_append (a b : JFields) (k : String) :
    (a.append b).hasKey k = (a.hasKey k || b.hasKey k) := by
  induction a using JFields.inductionOn with
  | hnil => rfl
  | hcons k2 v2 rest ih =>
    rw [JFields.append, JFields.hasKey, JFields.hasKey, ih, Bool.or_assoc]

theorem JFields.append_assoc (a b c : JFields) :
    (a.append b).append c = a.append (b.append c) := by
  induction a using JFields.inductionOn with
  | hnil => rfl
  | hcons k v rest ih => rw [JFields.append, JFields.append, ih, JFields.append]

theorem JFields.append_nil (a : JFields) : a.append .nil = a := by
  induction a using JFields.inductionOn with
  | hnil => rfl
  | hcons k v rest ih => rw [JFields.append, ih]

theorem setKeyL_fresh {α : Type} (o : List (String × α)) (k : String) (v : α)
    (h : hasKeyL o k = false) (hp : ¬ k = "__proto__") :
    setKeyL o k v = o ++ [(k, v)] := by
  simp [setKeyL, h, hp]

theorem hasKeyL_append {α : Type} (a b : List (String × α)) (k : String) :
    hasKeyL (a ++ b) k = (hasKeyL a k || hasKeyL b k) := by
  simp [hasKeyL, List.any_append]

theorem splitCharAux_no_sep (sep : Char) (l : List Char)
    (h : ∀ c ∈ l, c ≠ sep) :
    ∀ acc : List Char, splitCharAux sep l acc = [acc.reverse ++ l] := by
  induction l with
  | nil => intro acc; simp [splitCharAux]
  | cons c rest ih =>
    intro acc
    rw [splitCharAux, if_neg (h c (List.mem_cons_self c rest))]
    rw [ih (fun d hd => h d (List.mem_cons_of_mem _ hd)) (c :: acc)]
    simp

theorem jsSplit_no_sep (sep : Char) (s : String) (h : ∀ c ∈ s.data, c ≠ sep) :
    jsSplit sep s = [s] := by
  rw [jsSplit, splitCharAux_no_sep sep s.data h []]
  simp [string_mk_data]

theorem setPath_single_fresh (o : JFields) (k : String) (v : JVal)
    (h : o.hasKey k = false) (hp : k ∉ objProtoNames) :
    setPath o [k] v = .ok (o.append (.cons k v .nil)) := by
  rw [setPath, if_neg (by simp [h]), if_neg hp, JFields.setKey_fresh o k v h]

/-- Coercion of a flat string-to-string map into a JavaScript object
(a statement helper for the claims about parameter maps). -/
def strObj : List (String × String) → JFields
  | [] => .nil
  | p :: rest => .cons p.1 (JVal.str p.2) (strObj rest)

/-- The image of a flat string map under the boolean re-typing of
`_str2obj` (a statement helper). -/
def boolObj : List (String × String) → JFields
  | [] => .nil
  | p :: rest => .cons p.1 (boolify (JVal.str p.2)) (boolObj rest)

theorem jsToString_boolify (s : String) :
    jsToString (boolify (JVal.str s)) = s := by
  rw [boolify]
  by_cases h1 : s = "false"
  · rw [if_pos h1, h1]; rfl
  · rw [if_neg h1]
    by_cases h2 : s = "true"
    · rw [if_pos h2, h2]; rfl
    · rw [if_neg h2]; rfl

theorem charAt0_ne_of_not_mem (k : String) (c : Char) (h : c ∉ k.data) :
    ¬ charAt0 k = some c := by
  intro hc
  exact h (List.mem_of_mem_head? hc)

theorem str2objLoop_flat (P : List (String × String)) :
    ∀ res : JFields,
    (∀ k ∈ P.map Prod.fst, '.' ∉ k.data) →
    (∀ k ∈ P.map Prod.fst, k ∉ objProtoNames) →
    (P.map Prod.fst).Nodup →
    (∀ k ∈ P.map Prod.fst, res.hasKey k = false) →
    str2objLoop (strObj P) res = .ok (res.append (boolObj P)) := by
  induction P with
  | nil =>
    intro res _ _ _ _
    rw [show boolObj [] = .nil from rfl, JFields.append_nil]
    rfl
  | cons p rest ih =>
    intro res hdot hpr hnd hfresh
    obtain ⟨k, v⟩ := p
    have hk : '.' ∉ k.data := hdot k (by simp)
    have hksplit : jsSplit '.' k = [k] :=
      jsSplit_no_sep '.' k (fun c hc h => hk (h ▸ hc))
    have hch : ¬ charAt0 k = some '.' := charAt0_ne_of_not_mem k '.' hk
    have hfr : res.hasKey k = false := hfresh k (by simp)
    have hkpr : k ∉ objProtoNames := hpr k (by simp)
    have hknotin : k ∉ rest.map Prod.fst := by
      simp only [List.map_cons, List.nodup_cons] at hnd
      exact hnd.1
    rw [show strObj ((k, v) :: rest) = .cons k (JVal.str v) (strObj rest) from rfl]
    rw [str2objLoop, if_neg hch, hksplit,
      setPath_single_fresh res k (boolify (JVal.str v)) hfr hkpr]
    show str2objLoop (strObj rest) (res.append (.cons k (boolify (JVal.str v)) .nil)) =
      .ok (res.append (boolObj ((k, v) :: rest)))
    rw [ih (res.append (.cons k (boolify (JVal.str v)) .nil))
      (fun k2 h2 => hdot k2 (List.mem_cons_of_mem _ h2))
      (fun k2 h2 => hpr k2 (List.mem_cons_of_mem _ h2))
      (by simp only [List.map_cons, List.nodup_cons] at hnd; exact hnd.2)
      ?_]
    · rw [JFields.append_assoc]
      rfl
    · intro k2 h2
      rw [JFields.hasKey_append, hfresh k2 (List.mem_cons_of_mem _ h2)]
      have hne : ¬ (k = k2) := fun h => hknotin (h ▸ h2)
      simp [JFields.hasKey, hne]

theorem obj2strLoop_flat (P : List (String × String)) :
    ∀ res : List (String × String),
    (∀ k ∈ P.map Prod.fst, ¬ charAt0 k = some '_') →
    (∀ k ∈ P.map Prod.fst, ¬ k = "__proto__") →
    (∀ k ∈ P.map Prod.fst, hasKeyL res k = false) →
    (P.map Prod.fst).Nodup →
    obj2strLoop "" none (boolObj P) res = res ++ P := by
  induction P with
  | nil => intro res _ _ _ _; rw [List.append_nil]; rfl
  | cons p rest ih =>
    intro res hund hpr hfresh hnd
    obtain ⟨k, v⟩ := p
    have hch : ¬ charAt0 k = some '_' := hund k (by simp)
    have hfr : hasKeyL res k = false := hfresh k (by simp)
    have hne0 : ¬ k = "__proto__" := hpr k (by simp)
    have hknotin : k ∉ rest.map Prod.fst := by
      simp only [List.map_cons, List.nodup_cons] at hnd
      exact hnd.1
    have hentry : obj2strEntry "" none k res (boolify (JVal.str v)) = res ++ [(k, v)] := by
      by_cases h1 : v = "false"
      · subst h1
        show setKeyL res ("" ++ k) "false" = res ++ [(k, "false")]
        rw [string_empty_append, setKeyL_fresh res k _ hfr hne0]
      · by_cases h2 : v = "true"
        · subst h2
          show setKeyL res ("" ++ k) "true" = res ++ [(k, "true")]
          rw [string_empty_append, setKeyL_fresh res k _ hfr hne0]
        · rw [boolify, if_neg h1, if_neg h2]
          show setKeyL res ("" ++ k) v = res ++ [(k, v)]
          rw [string_empty_append, setKeyL_fresh res k _ hfr hne0]
    rw [show boolObj ((k, v) :: rest) = .cons k (boolify (JVal.str v)) (boolObj rest) from rfl]
    rw [obj2strLoop, if_neg hch, hentry]
    rw [ih (res ++ [(k, v)])
      (fun k2 h2 => hund k2 (List.mem_cons_of_mem _ h2))
      (fun k2 h2 => hpr k2 (List.mem_cons_of_mem _ h2))
      ?_
      (by simp only [List.map_cons, List.nodup_cons] at hnd; exact hnd.2)]
    · simp
    · intro k2 h2
      rw [hasKeyL_append, hfresh k2 (List.mem_cons_of_mem _ h2)]
      have hne : ¬ (k = k2) := fun h => hknotin (h ▸ h2)
      simp [hasKeyL, hne]

/-- C5 counterexample: the flat map with the single dotted key "a.a"
and no underscore keys reconstitutes to a nested object that flattens
back to the key "a" (the rootkey-equal-key special case of `_obj2str`
drops the prefix), so flatten after reconstitute is not the identity
on this map, refuting the claim as stated. -/
theorem param_nesting_counterexample :
    (_str2obj (strObj [("a.a", "1")])).map (fun o => _obj2str o none) = .ok [("a", "1")]
  ∧ [(("a" : String), ("1" : String))] ≠ [("a.a", "1")] := by
  constructor
  · rfl
  · decide

/-- C5 amended: for a flat parameter map P whose keys neither begin
with an underscore, nor contain a dot, nor collide with an
`Object.prototype` property name (and are pairwise distinct),
flattening the nested reconstitution gives back P exactly; and
reconstitute does split dotted keys into nested maps, with a.b.c=v
becoming the nested singleton objects. Outside these conditions the
round-trip fails: the counterexample with key "a.a" collapses a dotted
key, and a key such as "toString" is dropped entirely — the
`in`-operator guard of `_str2obj` sees the inherited property and the
code assigns onto the inherited function instead of creating an own
key (last conjunct). -/
theorem param_nesting_amended :
    (∀ P : List (String × String),
      (P.map Prod.fst).Nodup →
      (∀ k ∈ P.map Prod.fst,
        ¬ charAt0 k = some '_' ∧ '.' ∉ k.data ∧ k ∉ objProtoNames) →
      (_str2obj (strObj P)).map (fun o => _obj2str o none) = .ok P)
  ∧ _str2obj (strObj [("a.b.c", "v")]) =
      .ok (.cons "a" (.obj (.cons "b" (.obj (.cons "c" (.str "v") .nil)) .nil)) .nil)
  ∧ (_str2obj (strObj [("toString", "x")])).map (fun o => _obj2str o none) = .ok [] := by
  refine ⟨?_, rfl, rfl⟩
  intro P hnd hk
  rw [_str2obj, str2objLoop_flat P .nil
    (fun k h => (hk k h).2.1) (fun k h => (hk k h).2.2) hnd (fun k h => rfl)]
  rw [show (JFields.nil.append (boolObj P)) = boolObj P from rfl]
  rw [show Except.map (fun o => _obj2str o none)
      (Except.ok (ε := JsErr) (boolObj P)) =
    Except.ok (_obj2str (boolObj P) none) from rfl]
  rw [_obj2str, show jsPref none = "" from rfl]
  rw [obj2strLoop_flat P [] (fun k h => (hk k h).1)
    (fun k h heq => (hk k h).2.2 (by rw [heq]; decide))
    (fun k h => rfl) hnd]
  rw [List.nil_append]

/-- Closed witness for the amended C5, at a concrete two-key map. -/
theorem param_nesting_amended_witness :
    (_str2obj (strObj [("called", "9999"), ("lonely", "true")])).map
        (fun o => _obj2str o none)
      = .ok [("called", "9999"), ("lonely", "true")] :=
  param_nesting_amended.1 _ (by decide) (by decide)

/-! ## The YateMessage object (src/index.js lines 362-467, 1802-1814)

A `YateMessage` is modelled by its own-property list (`JFields`): the
underscore-prefixed internals (`_name`, `_time`, `_id`, `_type`,
`_handled`, `_retvalue`, `_acknowledged`, ...) together with the
parameters. The class accessors (`name`/`time`/`handled`) and the
non-writable prototype methods are modelled by the explicit property
read/write functions below. -/

/-- The recursive branch of `_deepCopy` (called as
`_deepCopy(dst[key], src[key])` with the default arguments, prefix "_"
and skip true): copies into a fresh object, skipping keys that start
with an underscore and function values, and deep-copying nested
objects. -/
def deepCopyFields : JFields → JFields
  | .nil => .nil
  | .cons k v rest =>
    if jsStartsWith k "_" then deepCopyFields rest
    else
      match v with
      | .fn => deepCopyFields rest
      | .obj f => .cons k (.obj (deepCopyFields f)) (deepCopyFields rest)
      | w => .cons k w (deepCopyFields rest)

/-- The prototype data properties made non-writable by the
`Object.defineProperties` call after the class body; a strict-mode
assignment to one of these names throws a `TypeError`. -/
def nonWritableNames : List String :=
  ["getParam", "setParam", "copyParams", "retValue",
   "msgTime", "getColumn", "getRow", "getResult"]

/-- The class accessor properties (`get`/`set` pairs on the
prototype). -/
def protoAccessorNames : List String := ["name", "time", "handled"]

/-- The remaining prototype-chain property names visible to the `in`
operator on a message: the non-writable methods, plus the
`Object.prototype` names (the class's writable `toString` shadows the
inherited one under the same name). -/
def protoOtherNames : List String :=
  nonWritableNames ++ objProtoNames

/-- The `in` operator on a message: own properties plus the prototype
chain. -/
def jsHasProp (m : JFields) (k : String) : Bool :=
  m.hasKey k || decide (k ∈ protoAccessorNames) || decide (k ∈ protoOtherNames)

/-- Property read `m[k]` on a message: own properties first, then the
class accessors (which read the backing underscore fields), then the
prototype methods (opaque function values, here only ever
string-coerced). -/
def jsGetProp (m : JFields) (k : String) : JVal :=
  if m.hasKey k then m.getVal k
  else if k = "name" then m.getVal "_name"
  else if k = "time" then m.getVal "_time"
  else if k = "handled" then m.getVal "_handled"
  else if k ∈ protoOtherNames then .fn
  else .jsUndefined

/-- Strict-mode property assignment `m[k] = v` on a message: the
accessor names invoke the class setters (which type-check the value
and write the backing underscore field, src/index.js lines 376-381);
the non-writable method names throw; `__proto__` assignment of the
value shapes that occur here is ignored by the inherited setter; every
other name writes the own property. -/
def strSetter (m : JFields) (field : String) (v : JVal) : JFields :=
  match v with
  | .str s => m.setKey field (.str s)
  | _ => m

def boolSetter (m : JFields) (field : String) (v : JVal) : JFields :=
  match v with
  | .bool b => m.setKey field (.bool b)
  | _ => m

def msgAssign (m : JFields) (k : String) (v : JVal) : Except JsErr JFields :=
  if k = "name" then .ok (strSetter m "_name" v)
  else if k = "time" then .ok (strSetter m "_time" v)
  else if k = "handled" then .ok (boolSetter m "_handled" v)
  else if k ∈ nonWritableNames then .error .typeError
  else if k = "__proto__" then .ok m
  else .ok (m.setKey k v)

/-- The constructor call `this.copyParams(params, "", false)`, that is
`_deepCopy(this, params, "", false)`: every source key is assigned
onto the message through `msgAssign`; object values are assigned as a
fresh object filled by the recursive copy. (The source assigns the
empty object first and then fills it; for ordinary keys the two are
observably equal. For an accessor key holding a nonempty object the
source recurses into the getter value and throws; no modelled flow
reaches that path.) -/
def copyIntoMessage : JFields → JFields → Except JsErr JFields
  | dst, .nil => .ok dst
  | dst, .cons k v rest =>
    match v with
    | .fn => copyIntoMessage dst rest
    | .obj f =>
      match msgAssign dst k (.obj (deepCopyFields f)) with
      | .ok dst2 => copyIntoMessage dst2 rest
      | .error e => .error e
    | w =>
      match msgAssign dst k w with
      | .ok dst2 => copyIntoMessage dst2 rest
      | .error e => .error e

/-- The `YateMessage` constructor as called by `_parseMessage`
(`new YateMessage(params._name, params)`): requires a nonempty string
name, writes the internal fields, then copies the params object over
them. The `Date.now`-based time and hrtime-based id are opaque fresh
values passed in as strings; no claim below depends on them. -/
def newYateMessage (freshTime freshId : String) (name : JVal) (params : JFields) :
    Except JsErr JFields :=
  match name with
  | .str s =>
    if s.length < 1 then .error .nameRequired
    else
      copyIntoMessage
        (.cons "_name" (.str s) (.cons "_time" (.str freshTime) (.cons "_id" (.str freshId)
          (.cons "_type" (.str "outgoing") (.cons "_handled" (.bool false) .nil)))))
        params
  | _ => .error .nameRequired

/-! ## The line parser `_parseMessage` (src/index.js lines 1596-1667) -/

/-- Field access `arg[i]` on the split line (`undefined` past the
end). -/
def argAt (arg : List String) (i : Nat) : JVal :=
  match arg.get? i with
  | some s => .str s
  | none => .jsUndefined

/-- The calls `_unescape(arg[i])`: on a missing field the JavaScript
function reads `.length` of `undefined` and throws a `TypeError`. -/
def unescapeArg (arg : List String) (i : Nat) : Except JsErr JVal :=
  match arg.get? i with
  | some s => .ok (.str (_unescape s))
  | none => .error .typeError

/-- The parameter loop over the sixth and later fields: a field with
`=` at a positive index contributes the unescaped key/value pair;
fields without `=` (or starting with it) are ignored. -/
def paramLoop : JFields → List String → JFields
  | params, [] => params
  | params, tok :: rest =>
    match tok.data.findIdx? (fun c => c = '=') with
    | some pos =>
      if 0 < pos then
        paramLoop
          (jsObjSet params (_unescape (String.mk (tok.data.take pos)))
            (.str (_unescape (String.mk (tok.data.drop (pos + 1)))))) rest
      else paramLoop params rest
    | none => paramLoop params rest

/-- The function `_parseMessage(str)`: splits on `:`, builds the
internal fields by verb (unknown verbs, including the "Error in ..."
lines, fall to the error record that captures the whole line), runs
the parameter loop and `_str2obj` for the three parameter-carrying
kinds, and finishes through the `YateMessage` constructor. The two
fresh-value arguments stand for the constructor's clock readings. -/
def _parseMessage (freshTime freshId : String) (line : String) : Except JsErr JFields := do
  let arg := jsSplit ':' line
  let a0 := arg.headD ""
  let params ←
    if a0 = "%%>message" then do
      let rv ← unescapeArg arg 4
      pure ((((((JFields.nil.setKey "_id" (argAt arg 1)).setKey "_time" (argAt arg 2)).setKey
        "_name" (argAt arg 3)).setKey "_retvalue" rv).setKey "_type" (.str "incoming")).setKey
        "_acknowledged" (.bool false))
    else if a0 = "%%<message" then do
      let rv ← unescapeArg arg 4
      pure (((((JFields.nil.setKey "_id" (argAt arg 1)).setKey "_handled"
        (.bool (_str2bool (argAt arg 2)))).setKey "_name" (argAt arg 3)).setKey
        "_retvalue" rv).setKey
        "_type" (.str (if jsTruthy (argAt arg 1) then "answer" else "notification")))
    else if a0 = "%%<install" then
      pure ((((JFields.nil.setKey "_priority" (argAt arg 1)).setKey "_name" (argAt arg 2)).setKey
        "_success" (.bool (_str2bool (argAt arg 3)))).setKey "_type" (.str "install"))
    else if a0 = "%%<uninstall" then
      pure ((((JFields.nil.setKey "_priority" (argAt arg 1)).setKey "_name" (argAt arg 2)).setKey
        "_success" (argAt arg 3)).setKey "_type" (.str "uninstall"))
    else if a0 = "%%<watch" then
      pure (((JFields.nil.setKey "_name" (argAt arg 1)).setKey "_success"
        (.bool (_str2bool (argAt arg 2)))).setKey "_type" (.str "watch"))
    else if a0 = "%%<unwatch" then
      pure (((JFields.nil.setKey "_name" (argAt arg 1)).setKey "_success"
        (.bool (_str2bool (argAt arg 2)))).setKey "_type" (.str "unwatch"))
    else if a0 = "%%<setlocal" then do
      let rv ← unescapeArg arg 2
      pure ((((JFields.nil.setKey "_name" (argAt arg 1)).setKey "_retvalue" rv).setKey
        "_success" (.bool (_str2bool (argAt arg 3)))).setKey "_type" (.str "setlocal"))
    else
      pure (((JFields.nil.setKey "_name" (.str "error")).setKey "_type" (.str "error")).setKey
        "_retvalue" (.str line))
  let typ := params.getVal "_type"
  let params2 ←
    if typ = .str "incoming" ∨ typ = .str "answer" ∨ typ = .str "notification" then
      _str2obj (paramLoop params (arg.drop 5))
    else
      pure params
  newYateMessage freshTime freshId (params2.getVal "_name") params2

/-- The verbs the parser recognizes (every other first field falls to
the error record). -/
def knownVerbs : List String :=
  ["%%>message", "%%<message", "%%<install", "%%<uninstall",
   "%%<watch", "%%<unwatch", "%%<setlocal"]

/-! ### Claim C3: the parser on malformed input -/

/-- C3 counterexample: the parser throws on the truncated lines
`%%>message` (a `TypeError` from `_unescape(undefined)`) and
`%%<install:100` (the constructor's "Message name required." error),
instead of returning an error-kind record. -/
theorem parser_throws_counterexample :
    _parseMessage "T" "I" "%%>message" = .error .typeError
  ∧ _parseMessage "T" "I" "%%<install:100" = .error .nameRequired := by
  exact ⟨rfl, rfl⟩

/-- C3 amended: every line whose first `:`-field is not a recognized
verb parses, without throwing, to a kind=error record carrying the
whole line as returnValue; numeric fields of known verbs are not
validated (a non-numeric time still parses as kind=incoming); but on
truncated known-verb lines such as `%%>message` the parser throws, as
the counterexample shows. -/
theorem parse_error_kind_amended :
    (∀ (ft fi line : String), (jsSplit ':' line).headD "" ∉ knownVerbs →
      _parseMessage ft fi line = .ok
        (.cons "_name" (.str "error") (.cons "_time" (.str ft) (.cons "_id" (.str fi)
          (.cons "_type" (.str "error") (.cons "_handled" (.bool false)
            (.cons "_retvalue" (.str line) .nil)))))))
  ∧ _parseMessage "T" "I" "%%>message:1:NOTANUMBER:call.route:rv" = .ok
      (.cons "_name" (.str "call.route") (.cons "_time" (.str "NOTANUMBER")
        (.cons "_id" (.str "1") (.cons "_type" (.str "incoming")
          (.cons "_handled" (.bool false) (.cons "_retvalue" (.str "rv")
            (.cons "_acknowledged" (.bool false) .nil))))))) := by
  constructor
  · intro ft fi line h
    simp only [knownVerbs, List.mem_cons, List.not_mem_nil, or_false, not_or] at h
    obtain ⟨h1, h2, h3, h4, h5, h6, h7⟩ := h
    rw [_parseMessage]
    rw [if_neg h1, if_neg h2, if_neg h3, if_neg h4, if_neg h5, if_neg h6, if_neg h7]
    rfl
  · rfl

/-- Closed witness for the amended C3, at the concrete unknown-verb
line "Error in test". -/
theorem parse_error_kind_amended_witness :
    _parseMessage "T" "I" "Error in test" = .ok
      (.cons "_name" (.str "error") (.cons "_time" (.str "T") (.cons "_id" (.str "I")
        (.cons "_type" (.str "error") (.cons "_handled" (.bool false)
          (.cons "_retvalue" (.str "Error in test") .nil)))))) :=
  parse_error_kind_amended.1 "T" "I" "Error in test" (by decide)

/-! ### Claim C10: setParam and the underscore guard -/

/-- The method `YateMessage.setParam(name, value)` (src/index.js lines
402-406): names whose first character is `_` are rejected with `false`
before any mutation; every other name is assigned through the normal
property-assignment semantics and `true` is returned. -/
def setParam (m : JFields) (name : String) (v : JVal) : Except JsErr (Bool × JFields) :=
  if charAt0 name = some '_' then .ok (false, m)
  else
    match msgAssign m name v with
    | .ok m2 => .ok (true, m2)
    | .error e => .error e

theorem JFields.getVal_setKey_same (o : JFields) (k : String) (v : JVal) :
    (o.setKey k v).getVal k = v := by
  induction o using JFields.inductionOn with
  | hnil => rw [JFields.setKey, JFields.getVal, if_pos rfl]
  | hcons k2 v2 rest ih =>
    rw [JFields.setKey]
    by_cases h : k2 = k
    · rw [if_pos h, JFields.getVal, if_pos rfl]
    · rw [if_neg h, JFields.getVal, if_neg h, ih]

theorem JFields.getVal_setKey_ne (o : JFields) (k k2 : String) (v : JVal)
    (h : ¬ k2 = k) : (o.setKey k v).getVal k2 = o.getVal k2 := by
  induction o using JFields.inductionOn with
  | hnil =>
    rw [JFields.setKey]
    rw [show (JFields.cons k v .nil).getVal k2 =
      if k = k2 then v else JFields.nil.getVal k2 from rfl]
    rw [if_neg (fun hh => h hh.symm)]
  | hcons k3 v3 rest ih =>
    rw [JFields.setKey]
    by_cases h3 : k3 = k
    · subst h3
      rw [if_pos rfl]
      rw [show (JFields.cons k3 v rest).getVal k2 =
        if k3 = k2 then v else rest.getVal k2 from rfl]
      rw [show (JFields.cons k3 v3 rest).getVal k2 =
        if k3 = k2 then v3 else rest.getVal k2 from rfl]
      rw [if_neg (fun hh => h hh.symm), if_neg (fun hh => h hh.symm)]
    · rw [if_neg h3]
      rw [show (JFields.cons k3 v3 (rest.setKey k v)).getVal k2 =
        if k3 = k2 then v3 else (rest.setKey k v).getVal k2 from rfl]
      rw [show (JFields.cons k3 v3 rest).getVal k2 =
        if k3 = k2 then v3 else rest.getVal k2 from rfl]
      by_cases h2 : k3 = k2
      · rw [if_pos h2, if_pos h2]
      · rw [if_neg h2, if_neg h2, ih]

/-- A concrete incoming message, as produced by the parser on the S2
style line; used as the sample input of several closed theorems. -/
def sampleIncoming : JFields :=
  .cons "_name" (.str "call.route") (.cons "_time" (.str "123") (.cons "_id" (.str "42")
    (.cons "_type" (.str "incoming") (.cons "_handled" (.bool false)
      (.cons "_retvalue" (.str "tone/ring") (.cons "_acknowledged" (.bool false)
        (.cons "called" (.str "9999") .nil)))))))

theorem sampleIncoming_parse :
    _parseMessage "123" "42" "%%>message:42:123:call.route:tone/ring:called=9999" =
      .ok sampleIncoming := rfl

/-- C10 counterexample: `setParam("handled", "true")` on an incoming
message returns `true` but changes nothing: the assignment hits the
class `handled` setter, which ignores non-boolean values, so the
parameter is not set (reading `handled` still yields the boolean
`false`), refuting "for every other name it sets that parameter". -/
theorem setParam_counterexample :
    setParam sampleIncoming "handled" (.str "true") = .ok (true, sampleIncoming)
  ∧ jsGetProp sampleIncoming "handled" = JVal.bool false := by
  exact ⟨rfl, rfl⟩

/-- C10 amended: for every name whose first character is `_`, setParam
returns false and leaves the message completely unchanged (the
underscore-prefixed internal fields cannot be touched through
setParam); for every other name that is not one of the message's
built-in accessor (`name`/`time`/`handled`), non-writable method, or
`__proto__` properties, setParam sets exactly that property and
returns true, changing no other property. Assignments to the built-in
names go through the class setters or throw, as the counterexample
shows for `handled`. -/
theorem setParam_amended :
    (∀ (m : JFields) (name : String) (v : JVal), charAt0 name = some '_' →
      setParam m name v = .ok (false, m))
  ∧ (∀ (m : JFields) (name : String) (v : JVal),
      ¬ charAt0 name = some '_' →
      name ∉ protoAccessorNames → name ∉ nonWritableNames → name ≠ "__proto__" →
      setParam m name v = .ok (true, m.setKey name v)
      ∧ (m.setKey name v).getVal name = v
      ∧ (∀ k2, k2 ≠ name → (m.setKey name v).getVal k2 = m.getVal k2)) := by
  constructor
  · intro m name v h
    rw [setParam, if_pos h]
  · intro m name v h hacc hnw hproto
    simp only [protoAccessorNames, List.mem_cons, List.not_mem_nil, or_false, not_or] at hacc
    obtain ⟨hn1, hn2, hn3⟩ := hacc
    refine ⟨?_, JFields.getVal_setKey_same m name v,
      fun k2 hk2 => JFields.getVal_setKey_ne m name k2 v hk2⟩
    rw [setParam, if_neg h, msgAssign, if_neg hn1, if_neg hn2, if_neg hn3,
      if_neg hnw, if_neg hproto]

/-- Closed witness for the amended C10: the underscore name `_id` is
rejected without change, and the plain name `caller` is set,
observable through the property reads. -/
theorem setParam_amended_witness :
    setParam sampleIncoming "_id" (.str "x") = .ok (false, sampleIncoming)
  ∧ setParam sampleIncoming "caller" (.str "123") =
      .ok (true, sampleIncoming.setKey "caller" (.str "123"))
  ∧ (sampleIncoming.setKey "caller" (.str "123")).getVal "caller" = .str "123"
  ∧ (sampleIncoming.setKey "caller" (.str "123")).getVal "called" =
      sampleIncoming.getVal "called" :=
  ⟨setParam_amended.1 sampleIncoming "_id" (.str "x") (by decide),
   (setParam_amended.2 sampleIncoming "caller" (.str "123")
     (by decide) (by decide) (by decide) (by decide)).1,
   (setParam_amended.2 sampleIncoming "caller" (.str "123")
     (by decide) (by decide) (by decide) (by decide)).2.1,
   (setParam_amended.2 sampleIncoming "caller" (.str "123")
     (by decide) (by decide) (by decide) (by decide)).2.2 "called" (by decide)⟩

/-! ## Acknowledgement and the incoming-message router
(src/index.js lines 1421-1497 and 1542-1546) -/

/-- The wire line written by `_acknowledge`:
`%%<message:<id>:<handled>::<retvalue>` followed by the flattened
non-underscore parameters. -/
def ackLine (m : JFields) : String :=
  "%%<message:" ++ _escape (m.getVal "_id") none ++ ":" ++
  _bool2str (jsTruthy (m.getVal "_handled")) ++ "::" ++
  _escape (m.getVal "_retvalue") none ++ _par2str m false

/-- The method `Yate._acknowledge(msg)`: returns without emitting
anything unless the message is an incoming one that has not been
acknowledged yet; otherwise marks it acknowledged and emits the
acknowledgement line. The second component collects the lines written
to the engine. -/
def _acknowledge (m : JFields) : JFields × List String :=
  if m.getVal "_type" ≠ .str "incoming" ∨ jsTruthy (m.getVal "_acknowledged") then (m, [])
  else (m.setKey "_acknowledged" (.bool true), [ackLine m])

/-- A registry row of `Yate._installs`: name, handler identity (an
opaque token standing for the function object), priority, and the
optional filter pair (`undefined` fields are `none`; the
`typeof === "string"` checks of the source are the `some` cases). The
`Yate._watches` rows have the same shape (priority unused). -/
structure InstallEntry where
  name : String
  handler : Nat
  priority : Nat
  filterName : Option String
  filterValue : Option String
  deriving Repr, DecidableEq

/-- The selection test the router applies to each installed handler
(and, identically, to each watcher) for a message: the names must
match, and when both filter fields are strings the handler fires iff
the message has the filter property (the `in` operator, which also
sees internal underscore fields and prototype properties) and the
regular-expression test accepts its string-coerced value. The regular
expression engine is abstracted as the function argument `rtest`
(taking the filter source text and the candidate string). -/
def selectsHandler (rtest : String → String → Bool) (m : JFields)
    (item : InstallEntry) : Bool :=
  decide (JVal.str item.name = m.getVal "_name") &&
  (match item.filterName, item.filterValue with
   | some f, some fv => jsHasProp m f && rtest fv (jsToString (jsGetProp m f))
   | _, _ => true)

/-- The fate of `Promise.all` over the selected handlers' results:
fulfilled with the result array, rejected (at least one handler
rejected; the source attaches no rejection continuation, so the
acknowledgement callback never runs — a synchronous handler throw,
which aborts `_read` before the promise is built, likewise produces no
acknowledgement and is subsumed here), or pending forever. -/
inductive AllOutcome where
  | fulfilled : List JVal → AllOutcome
  | rejected  : AllOutcome
  | pending   : AllOutcome

/-- The `case "incoming"` branch of `Yate._read`: collect the selected
handlers; with none, acknowledge immediately; otherwise acknowledge
only when `Promise.all` fulfils, with the handled flag set iff some
result is the boolean true. There is no timer in this code path: no
acknowledgement deadline exists, so a rejected or forever-pending
handler set emits nothing, ever. -/
def readIncoming (rtest : String → String → Bool)
    (installs : List (Option InstallEntry)) (m : JFields)
    (completion : AllOutcome) : JFields × List String :=
  let selected := (installs.filterMap id).filter (selectsHandler rtest m)
  if selected.isEmpty then _acknowledge m
  else
    match completion with
    | .fulfilled rs =>
      _acknowledge
        (if rs.any (fun r => decide (r = .bool true))
         then m.setKey "_handled" (.bool true) else m)
    | .rejected => (m, [])
    | .pending => (m, [])

/-- A handler row on `call.route` with no filter, used by several
closed theorems. -/
def callRouteEntry : InstallEntry :=
  { name := "call.route", handler := 1, priority := 100,
    filterName := none, filterValue := none }

/-! ### Claim C1: exactly-one acknowledgement and the missing deadline -/

/-- C1 (code bug evidence): on the parsed incoming `call.route` line,
(i) with one matching installed handler whose promise never settles
the router emits no acknowledgement at all — the code has no
client-side acknowledgement deadline (`acknowledge_timeout` is only
forwarded to the engine via setlocal, and only when it differs from
the default), so the "deadline" half of the claim has no code
counterpart; (ii) when the handler set resolves, exactly one
acknowledgement line is emitted; (iii) acknowledging an already
acknowledged message emits nothing (first-wins), so the exactly-once
half of the claim does hold on the paths that acknowledge. -/
theorem ack_deadline_missing :
    Except.map (fun m =>
        (readIncoming (fun _ _ => false) [some callRouteEntry] m .pending).2)
      (_parseMessage "123" "42" "%%>message:42:123:call.route:tone/ring:called=9999")
      = .ok []
  ∧ Except.map (fun m =>
        (readIncoming (fun _ _ => false) [some callRouteEntry] m
          (.fulfilled [.bool true])).2)
      (_parseMessage "123" "42" "%%>message:42:123:call.route:tone/ring:called=9999")
      = .ok ["%%<message:42:true::tone/ring:called=9999"]
  ∧ Except.map (fun m =>
        ((_acknowledge m).2.length, (_acknowledge (_acknowledge m).1).2))
      (_parseMessage "123" "42" "%%>message:42:123:call.route:tone/ring:called=9999")
      = .ok (1, []) := by
  exact ⟨rfl, rfl, rfl⟩

/-! ### Claim C4: handler failure suppresses the acknowledgement -/

/-- C4 (code bug evidence): on the same parsed incoming message with
one matching handler, a rejected handler promise makes `Promise.all`
reject; the router has no catch and no deadline timer, so the message
is never acknowledged (the claim requires an unchanged handled=false
acknowledgement before the deadline). The older bundled library
version attaches `.catch(() => this._acknowledge(message))` and
behaves as claimed; the current router does not. -/
theorem handler_failure_suppresses_ack :
    Except.map (fun m =>
        (readIncoming (fun _ _ => false) [some callRouteEntry] m .rejected).2)
      (_parseMessage "123" "42" "%%>message:42:123:call.route:tone/ring:called=9999")
      = .ok [] := by
  exact rfl

/-! ### Claim C9: filter semantics -/

/-- The parameter map of a message in the sense of the specification's
data model: the own properties whose keys do not begin with an
underscore (the internals are metadata, not parameters). This
definition follows the specification's words and is compared against
the code's selection test. -/
def msgParams : JFields → JFields
  | .nil => .nil
  | .cons k v rest =>
    if charAt0 k = some '_' then msgParams rest else .cons k v (msgParams rest)

/-- The specification's selection rule: a filtered handler fires iff
the message has a parameter named filterName whose value matches the
regular expression; unfiltered handlers fire on every message with
their name. -/
def specSelects (rtest : String → String → Bool) (m : JFields)
    (item : InstallEntry) : Bool :=
  decide (JVal.str item.name = m.getVal "_name") &&
  (match item.filterName, item.filterValue with
   | some f, some fv =>
     (msgParams m).hasKey f && rtest fv (jsToString ((msgParams m).getVal f))
   | _, _ => true)

theorem msgParams_hasKey (m : JFields) (f : String)
    (hf : ¬ charAt0 f = some '_') : (msgParams m).hasKey f = m.hasKey f := by
  induction m using JFields.inductionOn with
  | hnil => rfl
  | hcons k v rest ih =>
    rw [msgParams]
    by_cases hk : charAt0 k = some '_'
    · rw [if_pos hk, ih, JFields.hasKey]
      have : ¬ (k = f) := fun hh => hf (hh ▸ hk)
      simp [this]
    · rw [if_neg hk, JFields.hasKey, JFields.hasKey, ih]

theorem msgParams_getVal (m : JFields) (f : String)
    (hf : ¬ charAt0 f = some '_') : (msgParams m).getVal f = m.getVal f := by
  induction m using JFields.inductionOn with
  | hnil => rfl
  | hcons k v rest ih =>
    rw [msgParams]
    by_cases hk : charAt0 k = some '_'
    · rw [if_pos hk, ih, JFields.getVal]
      have hne : ¬ (k = f) := fun hh => hf (hh ▸ hk)
      rw [if_neg hne]
    · rw [if_neg hk, JFields.getVal, JFields.getVal, ih]

/-- C9 counterexample: a handler on `call.route` filtered on the
internal field `_type` with the filter expression "" (the empty
regular expression matches every string, so the abstract test is the
constantly true function) fires on the sample incoming message even
though the message has no parameter named `_type`: the code tests
`filterName in msg`, which sees the internal underscore fields, so
"fires iff the message has a parameter named filterName whose value
matches" is false as stated. -/
theorem filter_semantics_counterexample :
    selectsHandler (fun _ _ => true) sampleIncoming
      { name := "call.route", handler := 2, priority := 100,
        filterName := some "_type", filterValue := some "" } = true
  ∧ specSelects (fun _ _ => true) sampleIncoming
      { name := "call.route", handler := 2, priority := 100,
        filterName := some "_type", filterValue := some "" } = false := by
  exact ⟨rfl, rfl⟩

/-- C9 amended: for every abstract regular-expression test, every
message and every handler row whose filter name (when present) neither
begins with an underscore nor collides with a prototype property of
messages, the code's selection test coincides with the
specification's rule: the handler fires iff the message has a
parameter named filterName whose value matches the filter expression,
and handlers without a filter fire for every message with their name.
Watchers are selected by the same code path. For filter names that
name internal underscore fields or prototype properties the two
disagree, as the counterexample shows. -/
theorem filter_semantics_amended :
    ∀ (rtest : String → String → Bool) (m : JFields) (item : InstallEntry),
    (∀ f, item.filterName = some f →
      ¬ charAt0 f = some '_' ∧ f ∉ protoAccessorNames ∧ f ∉ protoOtherNames) →
    selectsHandler rtest m item = specSelects rtest m item := by
  intro rtest m item hf
  rw [selectsHandler, specSelects]
  cases hfn : item.filterName with
  | none => rfl
  | some f =>
    cases hfv : item.filterValue with
    | none => rfl
    | some fv =>
      obtain ⟨hu, hacc, hoth⟩ := hf f hfn
      show (decide (JVal.str item.name = m.getVal "_name") &&
          (jsHasProp m f && rtest fv (jsToString (jsGetProp m f)))) =
        (decide (JVal.str item.name = m.getVal "_name") &&
          ((msgParams m).hasKey f && rtest fv (jsToString ((msgParams m).getVal f))))
      have hhp : jsHasProp m f = m.hasKey f := by
        rw [jsHasProp]
        simp [hacc, hoth]
      have hhk : (msgParams m).hasKey f = m.hasKey f := msgParams_hasKey m f hu
      by_cases hk : m.hasKey f = true
      · have hgp : jsGetProp m f = m.getVal f := by rw [jsGetProp, if_pos hk]
        rw [hhp, hhk, hgp, msgParams_getVal m f hu]
      · have hk2 : m.hasKey f = false := by
          cases hcc : m.hasKey f
          · rfl
          · exact absurd hcc hk
        rw [hhp, hhk, hk2]
        simp

/-- Closed witness for the amended C9: a handler filtered on the
ordinary parameter `called` agrees with the specification's rule on
the sample message. -/
theorem filter_semantics_amended_witness :
    selectsHandler (fun fv s => s = fv) sampleIncoming
      { name := "call.route", handler := 3, priority := 100,
        filterName := some "called", filterValue := some "9999" } =
    specSelects (fun fv s => s = fv) sampleIncoming
      { name := "call.route", handler := 3, priority := 100,
        filterName := some "called", filterValue := some "9999" } :=
  filter_semantics_amended (fun fv s => s = fv) sampleIncoming
    { name := "call.route", handler := 3, priority := 100,
      filterName := some "called", filterValue := some "9999" }
    (by
      intro f hfe
      injection hfe with hh
      subst hh
      exact ⟨by decide, by decide, by decide⟩)

/-! ## The dispatch waiter (src/index.js lines 1388-1409, 1426-1428)

`Yate.dispatch(msg)` writes the message and installs a one-shot
listener on the event `_answer,<id>` together with a timer armed with
`dispatch_timeout`. The router (`_read`, case "answer") emits that
event when a correlated answer line arrives. The asynchronous behaviour
is modelled by a run over an explicit event trace: `answer m` is the
arrival of a correlated answer, `timerFire` is the expiry of the
dispatch timer; the flags carry whether the one-shot listener is still
installed and whether the timer is still armed. The returned list
collects the values the dispatch promise is resolved with, in order. -/

/-- An observable event for one dispatch waiter. -/
inductive DispatchEvent where
  | answer : JFields → DispatchEvent
  | timerFire : DispatchEvent

/-- One dispatch waiter over a trace: an answer while the listener is
installed resolves with the answer message, removes the listener (the
`once` semantics) and clears the timer; a timer expiry while armed
removes the listener, sets `_handled` to false and resolves with the
original message; everything else is ignored (an emitted event with no
listener is dropped, a cleared timer never fires). -/
def dispatchRun (msg : JFields) :
    List DispatchEvent → Bool → Bool → List JFields
  | [], _, _ => []
  | .answer m :: rest, listening, armed =>
    if listening then m :: dispatchRun msg rest false false
    else dispatchRun msg rest listening armed
  | .timerFire :: rest, listening, armed =>
    if armed then
      msg.setKey "_handled" (.bool false) :: dispatchRun msg rest false false
    else dispatchRun msg rest listening armed

theorem dispatchRun_inert (msg : JFields) (evs : List DispatchEvent) :
    dispatchRun msg evs false false = [] := by
  induction evs with
  | nil => rfl
  | cons e rest ih =>
    cases e with
    | answer m => exact ih
    | timerFire => exact ih

/-! ### Claim C6: dispatch resolves exactly once -/

/-- C6: over every event trace a dispatch resolves at most once; if
the timer fires before any answer (no correlated answer within
dispatch_timeout) it resolves exactly once, with the original message
marked handled=false, and any later engine reply causes no second
resolution; if the answer arrives first the dispatch resolves exactly
once with the answer message, and the timer is cleared. -/
theorem dispatch_resolves_once :
    (∀ (msg : JFields) (events : List DispatchEvent),
      (dispatchRun msg events true true).length ≤ 1)
  ∧ (∀ (msg : JFields) (rest : List DispatchEvent),
      dispatchRun msg (.timerFire :: rest) true true =
        [msg.setKey "_handled" (.bool false)]
      ∧ (msg.setKey "_handled" (.bool false)).getVal "_handled" = .bool false)
  ∧ (∀ (msg m : JFields) (rest : List DispatchEvent),
      dispatchRun msg (.answer m :: rest) true true = [m]) := by
  refine ⟨?_, ?_, ?_⟩
  · intro msg events
    cases events with
    | nil => simp [dispatchRun]
    | cons e rest =>
      cases e with
      | answer m =>
        show (m :: dispatchRun msg rest false false).length ≤ 1
        rw [dispatchRun_inert]
        simp
      | timerFire =>
        show (msg.setKey "_handled" (.bool false) ::
          dispatchRun msg rest false false).length ≤ 1
        rw [dispatchRun_inert]
        simp
  · intro msg rest
    constructor
    · show msg.setKey "_handled" (.bool false) ::
        dispatchRun msg rest false false = [msg.setKey "_handled" (.bool false)]
      rw [dispatchRun_inert]
    · exact JFields.getVal_setKey_same msg "_handled" (.bool false)
  · intro msg m rest
    show m :: dispatchRun msg rest false false = [m]
    rw [dispatchRun_inert]

/-- Closed witness for C6 at a concrete message and trace: the timer
fires first and a late answer arrives afterwards; the single
resolution is the original message with handled=false. -/
theorem dispatch_resolves_once_witness :
    dispatchRun sampleIncoming
      [.timerFire, .answer (.cons "_id" (.str "late") .nil)] true true =
      [sampleIncoming.setKey "_handled" (.bool false)] :=
  (dispatch_resolves_once.2.1 sampleIncoming
    [.answer (.cons "_id" (.str "late") .nil)]).1

/-! ## The unwatch operation (src/index.js lines 1242-1292, 1486-1488) -/

/-- A registry row of `Yate._watches` (no priority). -/
structure WatchEntry where
  name : String
  handler : Nat
  filterName : Option String
  filterValue : Option String
  deriving Repr, DecidableEq

/-- JavaScript truthiness of an optional string argument (absent or
empty is falsy). -/
def optTruthy : Option String → Bool
  | some s => s ≠ ""
  | none => false

/-- The outcome of an `unwatch` call: either a promise waiting on the
given emitter event key, or an immediate `false` resolution. -/
inductive UnwatchOutcome where
  | waiting : String → UnwatchOutcome
  | resolvedFalse : UnwatchOutcome
  deriving Repr, DecidableEq

/-- The per-entry `continue` chain of the removal loop in
`Yate.unwatch`: an entry with the requested name is kept (skipped)
when a given filter name/value disagrees, when a given handler
disagrees, or when no handler and no filters were given but the entry
is filtered; otherwise it is deleted. -/
def unwatchKeeps (handler : Option Nat) (name : String) (fn fv : Option String)
    (e : WatchEntry) : Bool :=
  if e.name = name then
    (optTruthy fn && decide (¬ e.filterName = fn)) ||
    (optTruthy fv && decide (¬ e.filterValue = fv)) ||
    (handler.isSome && decide (¬ some e.handler = handler)) ||
    (!handler.isSome && !optTruthy fn && !optTruthy fv &&
      optTruthy e.filterName && optTruthy e.filterValue)
  else true

/-- The method `Yate.unwatch(...)` after argument parsing: delete the
matching registry rows (`delete` leaves a hole, modelled by `none`);
if no row with the name remains, write `%%>unwatch:<name>` and wait —
on the event `"_uninstall," + name` (the source listens on the
uninstall key, not the unwatch key); otherwise resolve false with no
engine round-trip. Returns the new registry, the written lines and
the outcome. -/
def unwatchCore (handler : Option Nat) (name : String) (fn fv : Option String)
    (watches : List (Option WatchEntry)) :
    List (Option WatchEntry) × List String × UnwatchOutcome :=
  let watches2 := watches.map (fun slot =>
    match slot with
    | some e => if unwatchKeeps handler name fn fv e then some e else none
    | none => none)
  let watched := watches2.any (fun slot =>
    match slot with
    | some e => decide (e.name = name)
    | none => false)
  if watched then (watches2, [], .resolvedFalse)
  else (watches2, ["%%>unwatch:" ++ _escape (.str name) none],
    .waiting ("_uninstall," ++ name))

/-- The event key `Yate._read` emits for each parsed reply kind
(cases "answer", "install", "uninstall", "watch", "unwatch",
"setlocal" of the switch). -/
def readEventKey (m : JFields) : Option String :=
  if m.getVal "_type" = .str "answer" then
    some ("_answer," ++ jsToString (m.getVal "_id"))
  else if m.getVal "_type" = .str "install" then
    some ("_install," ++ jsToString (m.getVal "_name"))
  else if m.getVal "_type" = .str "uninstall" then
    some ("_uninstall," ++ jsToString (m.getVal "_name"))
  else if m.getVal "_type" = .str "watch" then
    some ("_watch," ++ jsToString (m.getVal "_name"))
  else if m.getVal "_type" = .str "unwatch" then
    some ("_unwatch," ++ jsToString (m.getVal "_name"))
  else if m.getVal "_type" = .str "setlocal" then
    some ("_setlocal," ++ jsToString (m.getVal "_name"))
  else none

/-! ### Claim C7: unwatch correlation -/

/-- C7 (code bug evidence): removing the last watcher for
"engine.timer" does write `%%>unwatch:engine.timer`, but the promise
waits on the event key `_uninstall,engine.timer`, while the router
emits `_unwatch,engine.timer` for the engine's `%%<unwatch` reply —
the keys differ, so the promise is never resolved by the unwatch
reply. When watchers for the name remain, unwatch resolves false
without an engine round-trip, as claimed. -/
theorem unwatch_wrong_event_key :
    unwatchCore (some 1) "engine.timer" none none
        [some { name := "engine.timer", handler := 1,
                filterName := none, filterValue := none }]
      = ([none], ["%%>unwatch:engine.timer"], .waiting "_uninstall,engine.timer")
  ∧ Except.map readEventKey (_parseMessage "T" "I" "%%<unwatch:engine.timer:true")
      = .ok (some "_unwatch,engine.timer")
  ∧ ("_uninstall,engine.timer" : String) ≠ "_unwatch,engine.timer"
  ∧ unwatchCore (some 1) "engine.timer" none none
        [some { name := "engine.timer", handler := 1,
                filterName := none, filterValue := none },
         some { name := "engine.timer", handler := 2,
                filterName := some "id", filterValue := some "x" }]
      = ([none,
          some { name := "engine.timer", handler := 2,
                 filterName := some "id", filterValue := some "x" }],
         [], .resolvedFalse) := by
  exact ⟨rfl, rfl, by decide, rfl⟩

/-! ## The tone/dtmf timeout of `YateChannel.callTo`
(src/index.js lines 138-202; the channel-mode copy at lines 789-862
computes the same timeout) -/

/-- The resolve delay of `callTo(dst, params)` for the `tone/dtmf`
destination family, as a function of `dst` and `params.timeout`
(`none` when `params.timeout` is not a number; a `params.timeout` of 0
and an absent one are both falsy and indistinguishable in this code).
The branch keeps `timeout` only through its truthiness: when falsy and
`dst` starts with "tone/dtmfstr/" the timeout becomes
`dst.slice(14).length * 250` (slice(14), although the prefix has 13
characters, so the first digit is dropped), and otherwise the branch
assigns 250 unconditionally, discarding any user-supplied value. The
promise then resolves after `timeout ? timeout : 250` milliseconds.
For non-tone destinations (`none` here) the operation waits on
`chan.notify` instead. -/
def toneResolveDelay (dst : String) (paramsTimeout : Option Nat) : Option Nat :=
  if jsStartsWith dst "tone/dtmf" then
    let t0 : Nat := match paramsTimeout with | some n => n | none => 0
    let t1 : Nat :=
      if t0 = 0 ∧ jsStartsWith dst "tone/dtmfstr/" then (dst.data.drop 14).length * 250
      else 250
    some (if t1 = 0 then 250 else t1)
  else none

/-! ### Claim C8: the computed tone timeout -/

/-- C8 (code bug evidence): for `tone/dtmfstr/123` with no
params.timeout the computed delay is 500 ms, not the claimed
750 ms = 250·3 — `slice(14)` drops the first digit because the prefix
"tone/dtmfstr/" is 13 characters long; and a numeric params.timeout
does not override the computed value — the else branch overwrites it
with 250 (so `tone/dtmf/1` with timeout 5000 still resolves after
250 ms). The plain `tone/dtmf/` case without params.timeout is 250 ms
as claimed. -/
theorem tone_timeout_divergence :
    toneResolveDelay "tone/dtmfstr/123" none = some 500
  ∧ toneResolveDelay "tone/dtmf/1" (some 5000) = some 250
  ∧ toneResolveDelay "tone/dtmf/1" none = some 250
  ∧ ("tone/dtmfstr/" : String).length = 13
  ∧ (("tone/dtmfstr/123" : String).data.drop 13).length = 3 := by
  exact ⟨rfl, rfl, rfl, by decide, by decide⟩

end NextYate
